import Mathlib

/-!
Shallow embedding of the request-processing core of the limhamn HTTP server
(src/include/limhamn/http/http_server.hpp and
src/include/limhamn/http/http_utils.hpp), together with theorems settling
the specification claims about it.

Strings of the C++ source are modelled as lists of characters; the URL
codec, which manipulates raw bytes, is modelled over lists of Fin 256.
External effects are made explicit: the session store and the multipart
destination files become association lists threaded through the functions,
and the random-string generator and the SHA-256 hash become function
parameters.  Functions that can raise std::out_of_range return Except.
-/

namespace Limhamn

/-- Character-list model of a C++ std::string. -/
abbrev Str := List Char

/-- Shorthand turning a Lean string literal into the character-list model. -/
def lit (s : String) : Str := s.toList

/-- Lookup in an association list, first binding wins (models map lookup). -/
def lookupA {α : Type} : List (Str × α) → Str → Option α
  | [], _ => none
  | (k, v) :: r, key => if k = key then some v else lookupA r key

/-- Insert into an association list, overwriting the first binding of the key
if present, appending otherwise (models map insert / operator[] assignment). -/
def insertA {α : Type} : List (Str × α) → Str → α → List (Str × α)
  | [], key, val => [(key, val)]
  | (k, v) :: r, key, val =>
    if k = key then (key, val) :: r else (k, v) :: insertA r key val

/-- Remove every binding of a key from an association list (models deleting
a file from the filesystem). -/
def eraseA {α : Type} : List (Str × α) → Str → List (Str × α)
  | [], _ => []
  | (k, v) :: r, key => if k = key then eraseA r key else (k, v) :: eraseA r key

/-- Index of the first occurrence of a substring, models std::string::find
(an empty pattern is found at index 0, as in C++). -/
def findSub (pat : Str) : Str → Option Nat
  | [] => if pat.isPrefixOf ([] : Str) then some 0 else none
  | c :: r =>
    if pat.isPrefixOf (c :: r) then some 0
    else (findSub pat r).map (· + 1)

/-- Index of the first occurrence of a character, models
std::string::find(char). -/
def firstIdxChar (x : Char) : Str → Option Nat
  | [] => none
  | c :: r => if c = x then some 0 else (firstIdxChar x r).map (· + 1)

/-- Index of the first occurrence of a character at or after position
start, models std::string::find(char, pos). -/
def findCharFrom (s : Str) (c : Char) (start : Nat) : Option Nat :=
  (firstIdxChar c (s.drop start)).map (· + start)

/-- Fuelled worker for splitOnSub. -/
def splitOnSubF (delim : Str) : Nat → Str → List Str
  | 0, s => [s]
  | fuel + 1, s =>
    match findSub delim s with
    | none => [s]
    | some i => s.take i :: splitOnSubF delim fuel (s.drop (i + delim.length))

/-- Split on every occurrence of the delimiter, mirroring the split lambda
of parse_multipart_form_file (a final token holds the remainder after the
last delimiter).  The fuel bounds the loop; length s + 1 iterations suffice
for every nonempty delimiter, and the C++ loop does not terminate on an
empty delimiter anyway. -/
def splitOnSub (delim s : Str) : List Str := splitOnSubF delim (s.length + 1) s

/-- The whitespace set " \t\n\r\f\v" used by the trim lambdas. -/
def isWsChar (c : Char) : Bool :=
  c == ' ' || c == '\t' || c == '\n' || c == '\r' || c == '\x0c' || c == '\x0b'

/-- The trim lambda of the multipart parsers: find_first_not_of and
find_last_not_of over the whitespace set, empty result when all blank. -/
def trimWs (s : Str) : Str :=
  ((s.dropWhile isWsChar).reverse.dropWhile isWsChar).reverse

/-! ## URL codec (http_utils.hpp, urlencode and urldecode)

These two functions manipulate raw bytes, so they are modelled over
lists of Fin 256. -/

/-- A byte. -/
abbrev B := Fin 256

/-- The bytes urlencode leaves literal: isalnum in the default C locale
together with the four marks, i.e. the set A-Za-z0-9 . _ ~ - . -/
def isUnreservedByte (b : B) : Bool :=
  decide ((48 ≤ b.val ∧ b.val ≤ 57) ∨ (65 ≤ b.val ∧ b.val ≤ 90) ∨
    (97 ≤ b.val ∧ b.val ≤ 122) ∨ b.val = 45 ∨ b.val = 95 ∨ b.val = 46 ∨ b.val = 126)

/-- Lowercase hexadecimal digit byte for a value below 16, as produced by
the std::hex output of urlencode. -/
def hexDigitChar (n : Nat) : B :=
  if n < 10 then ((n + 48 : Nat) : B) else ((n + 87 : Nat) : B)

/-- urlencode: a literal byte for the unreserved set, otherwise a percent
sign followed by the two lowercase hex digits of the byte (setw(2) with
fill 0). -/
def urlencode : List B → List B
  | [] => []
  | c :: r =>
    (if isUnreservedByte c then [c]
     else [37, hexDigitChar (c.val / 16), hexDigitChar (c.val % 16)]) ++ urlencode r

/-- istream whitespace bytes (space, \t, \n, \v, \f, \r). -/
def isWsByte (b : B) : Bool :=
  decide (b.val = 32 ∨ b.val = 9 ∨ b.val = 10 ∨ b.val = 11 ∨ b.val = 12 ∨ b.val = 13)

/-- Value of a hexadecimal digit byte (0-9, A-F, a-f). -/
def hexVal (b : B) : Option Nat :=
  if 48 ≤ b.val ∧ b.val ≤ 57 then some (b.val - 48)
  else if 65 ≤ b.val ∧ b.val ≤ 70 then some (b.val - 55)
  else if 97 ≤ b.val ∧ b.val ≤ 102 then some (b.val - 87)
  else none

/-- Accumulate the longest prefix of hexadecimal digits. -/
def hexRunAux : List B → Nat → Nat
  | [], acc => acc
  | b :: r, acc =>
    match hexVal b with
    | some d => hexRunAux r (16 * acc + d)
    | none => acc

/-- Longest prefix of hexadecimal digits; none when the first byte is not a
digit. -/
def hexRun : List B → Option Nat
  | [] => none
  | b :: r =>
    match hexVal b with
    | some d => some (hexRunAux r d)
    | none => none

/-- Model of the stream extraction iss >> std::hex >> hex_value performed
by urldecode on the two bytes following a percent sign: skip leading
whitespace, accept an optional sign, then read the longest prefix of
hexadecimal digits; the extraction succeeds iff at least one digit is
read. -/
def istreamHex (w : List B) : Option Int :=
  match w.dropWhile isWsByte with
  | [] => none
  | b :: r =>
    if b.val = 43 then (hexRun r).map (fun n => (n : Int))
    else if b.val = 45 then (hexRun r).map (fun n => -(n : Int))
    else (hexRun (b :: r)).map (fun n => (n : Int))

/-- static_cast<char> of the extracted int, then appending that char to a
byte string: the low byte in two's complement. -/
def intToByte (v : Int) : B := ⟨(v % 256).toNat % 256, Nat.mod_lt _ (by omega)⟩

/-- urldecode: a percent sign followed by at least two bytes (the guard
i + 2 < length) runs the stream extraction on exactly those two bytes,
emitting the extracted value and skipping both bytes on success and
emitting a literal percent sign (skipping nothing) on failure; a byte that
is not a percent sign, or a percent sign with fewer than two following
bytes, is copied literally. -/
def urldecode : List B → List B
  | [] => []
  | [c] => [c]
  | [c, b1] => c :: urldecode [b1]
  | c :: b1 :: b2 :: r =>
    if c.val = 37 then
      match istreamHex [b1, b2] with
      | some v => intToByte v :: urldecode r
      | none => c :: urldecode (b1 :: b2 :: r)
    else c :: urldecode (b1 :: b2 :: r)

/-! ## HTML entity codec (http_utils.hpp, htmlspecialchars and
htmlspecialchars_decode) -/

/-- The six characters replaced by htmlspecialchars. -/
def escapeSet : List Char := ['<', '>', '&', '"', '\'', '\\']

/-- Replacement performed for one character by the htmlspecialchars loop. -/
def escChar (c : Char) : Str :=
  if c = '<' then lit "&lt;"
  else if c = '>' then lit "&gt;"
  else if c = '&' then lit "&amp;"
  else if c = '"' then lit "&quot;"
  else if c = '\'' then lit "&apos;"
  else if c = '\\' then lit "&bsol;"
  else [c]

/-- htmlspecialchars: the in-place loop replaces the character at i and
continues at i + 1, i.e. inside the inserted entity; since no entity
contains a character from the escaped set, the net effect is this single
left-to-right pass that never rescans an inserted entity. -/
def htmlspecialchars : Str → Str
  | [] => []
  | c :: r => escChar c ++ htmlspecialchars r

/-- Entity recognition of the htmlspecialchars_decode loop after an
ampersand, over the characters that follow it.  The C++ code reads
ret.at(i + k) unguarded, so evaluation follows the exact short-circuit
order of the six condition chains and raises std::out_of_range (error
here) whenever a demanded position is past the end of the string.  On
success it yields the replacement character and the number of trailing
characters consumed. -/
def entityMatch : Str → Except Unit (Option (Char × Nat))
  | [] => .error ()
  | c1 :: r1 =>
    if c1 = 'l' then
      match r1 with
      | [] => .error ()
      | c2 :: r2 =>
        if c2 = 't' then
          match r2 with
          | [] => .error ()
          | c3 :: _ => .ok (if c3 = ';' then some ('<', 3) else none)
        else .ok none
    else if c1 = 'g' then
      match r1 with
      | [] => .error ()
      | c2 :: r2 =>
        if c2 = 't' then
          match r2 with
          | [] => .error ()
          | c3 :: _ => .ok (if c3 = ';' then some ('>', 3) else none)
        else .ok none
    else if c1 = 'a' then
      match r1 with
      | [] => .error ()
      | c2 :: r2 =>
        if c2 = 'm' then
          match r2 with
          | [] => .error ()
          | c3 :: r3 =>
            if c3 = 'p' then
              match r3 with
              | [] => .error ()
              | c4 :: _ => .ok (if c4 = ';' then some ('&', 4) else none)
            else .ok none
        else if c2 = 'p' then
          match r2 with
          | [] => .error ()
          | c3 :: r3 =>
            if c3 = 'o' then
              match r3 with
              | [] => .error ()
              | c4 :: r4 =>
                if c4 = 's' then
                  match r4 with
                  | [] => .error ()
                  | c5 :: _ => .ok (if c5 = ';' then some ('\'', 5) else none)
                else .ok none
            else .ok none
        else .ok none
    else if c1 = 'q' then
      match r1 with
      | [] => .error ()
      | c2 :: r2 =>
        if c2 = 'u' then
          match r2 with
          | [] => .error ()
          | c3 :: r3 =>
            if c3 = 'o' then
              match r3 with
              | [] => .error ()
              | c4 :: r4 =>
                if c4 = 't' then
                  match r4 with
                  | [] => .error ()
                  | c5 :: _ => .ok (if c5 = ';' then some ('"', 5) else none)
                else .ok none
            else .ok none
        else .ok none
    else if c1 = 'b' then
      match r1 with
      | [] => .error ()
      | c2 :: r2 =>
        if c2 = 's' then
          match r2 with
          | [] => .error ()
          | c3 :: r3 =>
            if c3 = 'o' then
              match r3 with
              | [] => .error ()
              | c4 :: r4 =>
                if c4 = 'l' then
                  match r4 with
                  | [] => .error ()
                  | c5 :: _ => .ok (if c5 = ';' then some ('\\', 5) else none)
                else .ok none
            else .ok none
        else .ok none
    else .ok none

/-- Fuelled worker for htmlspecialchars_decode: left-to-right loop; at an
ampersand the entity recognition runs (raising std::out_of_range when it
reads past the end), a recognized entity is replaced by its character and
scanning resumes right after it, an unrecognized ampersand is kept and
scanning resumes at the following character.  Every iteration consumes at
least one character, so fuel length + 1 always suffices. -/
def hsdecF : Nat → Str → Except Unit Str
  | 0, s => .ok s
  | _ + 1, [] => .ok []
  | fuel + 1, c :: r =>
    if c = '&' then
      match entityMatch r with
      | .error e => .error e
      | .ok (some (d, k)) =>
        match hsdecF fuel (r.drop k) with
        | .error e => .error e
        | .ok t => .ok (d :: t)
      | .ok none =>
        match hsdecF fuel r with
        | .error e => .error e
        | .ok t => .ok ('&' :: t)
    else
      match hsdecF fuel r with
      | .error e => .error e
      | .ok t => .ok (c :: t)

/-- htmlspecialchars_decode. -/
def htmlspecialchars_decode (s : Str) : Except Unit Str := hsdecF (s.length + 1) s

/-! ## Cookie engine (http_server.hpp, struct cookie,
get_cookies_from_request and the Set-Cookie serialization of
handle_request) -/

/-- The cookie struct with its member initializers. -/
structure cookie where
  name : Str := []
  value : Str := []
  expires : Int := 0
  path : Str := lit "/"
  domain : Str := []
  same_site : Str := lit "Strict"
  attributes : List Str := []
  http_only : Bool := false
  secure : Bool := false
  extra_attributes : List (Str × Str) := []
deriving DecidableEq

/-- One leading space is stripped from a cookie name (after the emptiness
check, not before it). -/
def stripLeadingSpace : Str → Str
  | ' ' :: t => t
  | s => s

/-- Body of one iteration of the cookie parsing loop: split the segment at
its first equals sign; substr(find + 1) on a segment without an equals
sign wraps npos + 1 to 0, so both name and value become the whole
segment.  A cookie is produced only when name and value are nonempty
before the leading-space trim of the name. -/
def parseCookieSeg (seg : Str) : Option cookie :=
  let name :=
    match firstIdxChar '=' seg with
    | some p => seg.take p
    | none => seg
  let value :=
    match firstIdxChar '=' seg with
    | some p => seg.drop (p + 1)
    | none => seg
  if name ≠ [] ∧ value ≠ [] then
    some { name := stripLeadingSpace name, value := value }
  else none

/-- The while loop of get_cookies_from_request: while a semicolon exists,
take the text before the first semicolon as a segment and continue after
it (text after the last semicolon is never processed).  The fuel bounds
the iteration count; each pass consumes at least the semicolon, so
length + 1 iterations always suffice. -/
def cookieLoopF : Nat → Str → List cookie
  | 0, _ => []
  | fuel + 1, cs =>
    if cs.dropWhile (fun c => c != ';') = [] then []
    else
      match parseCookieSeg (cs.takeWhile (fun c => c != ';')) with
      | some c => c :: cookieLoopF fuel (cs.dropWhile (fun c => c != ';')).tail
      | none => cookieLoopF fuel (cs.dropWhile (fun c => c != ';')).tail

/-- get_cookies_from_request: append one semicolon and run the loop. -/
def get_cookies_from_request (cookie_header : Str) : List cookie :=
  cookieLoopF (cookie_header.length + 1) (cookie_header ++ [';'])

/-- The Set-Cookie line built for one response cookie by handle_request
(lines 523-552).  The RFC 1123 date formatting done through std::gmtime is
external, so it is passed in as the gmt parameter. -/
def cookieLine (gmt : Int → Str) (c : cookie) : Str :=
  c.name ++ lit "=" ++ c.value ++ lit "; " ++
  (if c.expires ≠ 0 then lit "Expires=" ++ gmt c.expires ++ lit "; "
   else lit "Expires=session; ") ++
  (if c.http_only then lit "HttpOnly; " else []) ++
  (if c.secure then lit "Secure; " else []) ++
  (if c.path ≠ [] then lit "Path=" ++ c.path ++ lit "; " else []) ++
  (if c.domain ≠ [] then lit "Domain=" ++ c.domain ++ lit "; " else []) ++
  (if c.same_site ≠ [] ∧
      (c.same_site = lit "Strict" ∨ c.same_site = lit "Lax" ∨ c.same_site = lit "None")
   then lit "SameSite=" ++ c.same_site ++ lit "; " else []) ++
  (c.attributes.foldl (fun acc a => acc ++ a ++ lit "; ") []) ++
  (c.extra_attributes.foldl (fun acc kv => acc ++ kv.1 ++ lit "=" ++ kv.2 ++ lit "; ") [])

/-- The Set-Cookie deletion line built for one cookie name
(handle_request lines 561-564). -/
def deleteLine (n : Str) : Str :=
  n ++ lit "=; Expires=Thu, 01 Jan 1970 00:00:00 GMT; Max-Age=0; Path=/; "

/-! ## Session pipeline (http_server.hpp, handle_request lines 432-564)

The session store (one file per identifier under session_dir) is modelled
as an association list from sanitized identifier to session map; a missing
record reads as the empty map, exactly as read_from_session_file returns
an empty map for a file that is not good(). -/

/-- A session map (flat string-to-string map). -/
abbrev SessMap := List (Str × Str)

/-- The session store. -/
abbrev Store := List (Str × SessMap)

/-- The configuration globals consulted by the session part of
handle_request. -/
structure sconfig where
  enable_session : Bool := true
  session_cookie_name : Str := lit "session_id"
  associated_session_cookies : List Str := []
  session_is_secure : Bool := false

/-- The request struct (fields irrelevant to the embedded logic keep their
defaults). -/
structure srequest where
  endpoint : Str := []
  query : List (Str × Str) := []
  content_type : Str := []
  body : Str := []
  raw_body : Str := []
  method : Str := []
  ip_address : Str := []
  user_agent : Str := []
  version : Nat := 0
  cookies : List cookie := []
  session : SessMap := []
  session_id : Str := []
  fields : List (Str × Str) := []
deriving DecidableEq

/-- The response struct with its member initializers. -/
structure sresponse where
  http_status : Int := 200
  body : Str := []
  content_type : Str := lit "application/json"
  allow_origin : Str := lit "*"
  stop : Bool := false
  cookies : List cookie := []
  delete_cookies : List Str := []
  session : SessMap := []
  location : Str := []
  headers : List (Str × Str) := []
deriving DecidableEq

/-- The loop over request.cookies (lines 457-463): value of the first
cookie whose name is the session cookie name and whose value is nonempty,
while sessions are enabled. -/
def findSessionValue (cfg : sconfig) (cookies : List cookie) : Option Str :=
  (cookies.find? fun it =>
    decide (it.name = cfg.session_cookie_name ∧ it.value ≠ [] ∧ cfg.enable_session = true)).map
    (fun c => c.value)

/-- Sanitization of the presented session identifier: every slash is
removed (line 467). -/
def sanitizeSessionId (s : Str) : Str := s.filter (fun c => c != '/')

/-- The request as rebuilt when the presented identifier has no backing
record (lines 470-490): the cookies whose names are configured as
associated session cookies and the session cookie itself are erased from
the cookie list, and the session map and session identifier are
cleared. -/
def invalidSessionRequest (cfg : sconfig) (req : srequest) : srequest :=
  { req with
    cookies := (req.cookies.filter
        (fun c => decide (¬ c.name ∈ cfg.associated_session_cookies))).filter
      (fun c => decide (c.name ≠ cfg.session_cookie_name)),
    session := [], session_id := [] }

/-- Session resolution before the callback (lines 455-495).  Returns the
updated request together with the erase_associated flag, the
session_id_found flag and the sanitized local session_id variable. -/
def resolveSession (cfg : sconfig) (store : Store) (req : srequest) :
    srequest × Bool × Bool × Str :=
  match findSessionValue cfg req.cookies with
  | none => (req, false, false, [])
  | some v =>
    let sid := sanitizeSessionId v
    match lookupA store sid with
    | none => (invalidSessionRequest cfg req, true, true, sid)
    | some m => ({ req with session := m, session_id := sid }, false, true, sid)

/-- The session cookie pushed when minting a fresh identifier
(line 510). -/
def mintedSessionCookie (cfg : sconfig) (freshId : Str) : cookie :=
  { name := cfg.session_cookie_name, value := freshId, expires := 0, path := lit "/",
    same_site := lit "Strict", http_only := true, secure := cfg.session_is_secure }

/-- Post-callback session maintenance (lines 499-521).  When no incoming
session cookie was found and sessions are enabled, a fresh identifier is
minted and pushed unless the callback already set a cookie with the
session cookie name; otherwise, when sessions are enabled, the stored
record of the (possibly dangling) identifier is read, overlaid with the
response session entries and written back. -/
def afterCallback (cfg : sconfig) (store : Store) (found : Bool) (sid : Str)
    (freshId : Str) (resp : sresponse) : sresponse × Store :=
  if found = false ∧ cfg.enable_session = true then
    let minted := resp.cookies.any (fun c => decide (c.name = cfg.session_cookie_name))
    if minted = false then
      ({ resp with cookies := resp.cookies ++ [mintedSessionCookie cfg freshId] }, store)
    else (resp, store)
  else if cfg.enable_session = true then
    let stored := (lookupA store sid).getD []
    let merged := resp.session.foldl (fun m kv => insertA m kv.1 kv.2) stored
    (resp, insertA store sid merged)
  else (resp, store)

/-- Result of one pass through the session-relevant part of
handle_request. -/
structure hsOut where
  req : srequest
  resp : sresponse
  store : Store
  set_cookie_lines : List Str
deriving DecidableEq

/-- The session-relevant slice of handle_request for a non-OPTIONS
request: resolve the session, call the callback, run the post-callback
session maintenance, then serialize one Set-Cookie line per response
cookie followed by one deletion line per name in delete_cookies (with the
associated session cookies appended to delete_cookies first when
erase_associated was set). -/
def handle_request_session (cfg : sconfig) (store : Store) (gmt : Int → Str)
    (freshId : Str) (callback : srequest → sresponse) (req : srequest) : hsOut :=
  let r := resolveSession cfg store req
  let req' := r.1
  let erase := r.2.1
  let found := r.2.2.1
  let sid := r.2.2.2
  let resp := callback req'
  let ac := afterCallback cfg store found sid freshId resp
  let resp' := ac.1
  let store' := ac.2
  let dels := resp'.delete_cookies ++
    (if erase then cfg.associated_session_cookies else [])
  { req := req', resp := resp', store := store',
    set_cookie_lines := resp'.cookies.map (cookieLine gmt) ++ dels.map deleteLine }

/-! ## Admission and rate limiting (http_server.hpp, read_request
lines 268-340)

Admitted means the asynchronous read is initiated and the request
continues through the pipeline; dropped means read_request returns
without initiating it, so the connection is never serviced and no
response is written. -/

/-- The outcome of read_request for a connection. -/
inductive admission where
  | admitted
  | dropped
deriving DecidableEq

/-- Rate limiter state for one key: the stored endpoint, the window start
last_request_time and the request_count. -/
abbrev RLEntry := Str × Int × Int

/-- The global rate_limit_tracker. -/
abbrev Tracker := List (Str × RLEntry)

/-- The configuration globals consulted by read_request. -/
structure rlconfig where
  whitelisted_ips : List Str := []
  blacklisted_ips : List Str := []
  rate_limited_endpoints : List (Str × Int) := []
  default_rate_limit : Int := 100

/-- Applicable limit for an endpoint: the first configured per-endpoint
override, else the default (lines 308-314). -/
def applicableLimit (cfg : rlconfig) (endpoint : Str) : Int :=
  match cfg.rate_limited_endpoints.find? (fun pr => decide (pr.1 = endpoint)) with
  | some pr => pr.2
  | none => cfg.default_rate_limit

/-- One transition of the per-key rate limit entry (lines 316-329): a
missing entry is created with count 1 and the request admitted; an entry
inside the 60000 ms window rejects when the count has reached the limit
and otherwise increments; an entry whose window has elapsed is reset to
count 1 and the request admitted. -/
def rateStep (limit : Int) (now : Int) : Option (Int × Int) → admission × (Int × Int)
  | none => (.admitted, (now, 1))
  | some (t, c) =>
    if now - t < 60000 then
      if c ≥ limit then (.dropped, (t, c)) else (.admitted, (t, c + 1))
    else (.admitted, (now, 1))

/-- read_request admission (lines 268-340): the whitelist loop runs first
and admits a whitelisted address immediately, bypassing both the blacklist
and the rate limiter; then a blacklisted address is dropped without a
response; otherwise the rate limit entry for ip + ":" + endpoint makes
one rateStep transition. -/
def read_request (cfg : rlconfig) (tr : Tracker) (ip endpoint : Str) (now : Int) :
    admission × Tracker :=
  if ip ∈ cfg.whitelisted_ips then (.admitted, tr)
  else if ip ∈ cfg.blacklisted_ips then (.dropped, tr)
  else
    let key := ip ++ lit ":" ++ endpoint
    let limit := applicableLimit cfg endpoint
    match lookupA tr key with
    | none => (.admitted, insertA tr key (endpoint, now, 1))
    | some (ep, t, c) =>
      match rateStep limit now (some (t, c)) with
      | (a, (t', c')) => (a, insertA tr key (ep, t', c'))

/-- Iterate rateStep over a list of request times for one fixed key. -/
def runRL (limit : Int) : Option (Int × Int) → List Int → Option (Int × Int)
  | e, [] => e
  | e, now :: rest => runRL limit (some (rateStep limit now e).2) rest

/-! ## Multipart codec (http_utils.hpp, parse_multipart_form_file
lines 266-411)

The filesystem the parts are written to is an association list from path
to content threaded through the parse; opening a destination always
succeeds in the model.  The SHA-256 hash of the field name and the
64-character random strings consumed by the %r substitution are function
parameters (the random supply is indexed by a counter threaded through
the parse). -/

/-- The multipart_file struct. -/
structure mfile where
  name : Str := []
  filename : Str := []
  path : Str := []
  sha256 : Str := []
  size : Nat := 0
deriving DecidableEq

/-- The modelled filesystem. -/
abbrev FS := List (Str × Str)

/-- State threaded through the per-part loop: the result vector, the
filesystem and the random supply counter. -/
structure mpState where
  files : List mfile := []
  fs : FS := []
  rnd : Nat := 0
deriving DecidableEq

/-- Replace the first occurrence of a pattern. -/
def replaceFirstSub (pat repl s : Str) : Option Str :=
  (findSub pat s).map (fun i => s.take i ++ repl ++ s.drop (i + pat.length))

/-- Fuelled worker for substAll. -/
def substAllF (pat repl : Str) : Nat → Str → Str
  | 0, s => s
  | fuel + 1, s =>
    match replaceFirstSub pat repl s with
    | none => s
    | some t => substAllF pat repl fuel t

/-- The while loop replacing every occurrence of %f or %h in the path
template, rescanning from the start after each replacement (so text formed
by an earlier replacement is substituted again).  The C++ loop does not
terminate when the replacement keeps reintroducing the pattern; the fuel
bounds that loop and is generous enough for every terminating run in
which each replacement removes one occurrence. -/
def substAll (pat repl s : Str) : Str :=
  substAllF pat repl ((s.length + repl.length + 2) * (s.length + 2)) s

/-- Fuelled worker for substAllRand. -/
def substAllRandF (pat : Str) (rand : Nat → Str) : Nat → Nat → Str → Str × Nat
  | 0, k, s => (s, k)
  | fuel + 1, k, s =>
    match findSub pat s with
    | none => (s, k)
    | some i =>
      substAllRandF pat rand fuel (k + 1) (s.take i ++ rand k ++ s.drop (i + pat.length))

/-- The while loop replacing every occurrence of %r with a fresh random
string, rescanning from the start after each replacement; same fuel
remark as substAll. -/
def substAllRand (pat : Str) (rand : Nat → Str) (k : Nat) (s : Str) : Str × Nat :=
  substAllRandF pat rand ((s.length + 2) * 70) k s

/-- Boundary extraction (lines 291-305): find "boundary=", then the first
"\r\n" at or after it (none can start inside "boundary=" itself, so the
search may start after it), and prefix two dashes; a missing boundary or
missing line end yields no boundary and the parse returns empty. -/
def getBoundary (request : Str) : Option Str :=
  match findSub (lit "boundary=") request with
  | none => none
  | some p =>
    match findSub (lit "\r\n") (request.drop (p + 9)) with
    | none => none
    | some q => some (lit "--" ++ (request.drop (p + 9)).take q)

/-- The result-vector accumulation of lines 393-407: the first existing
record with the same field name absorbs the new size, otherwise the file
record is appended. -/
def addRecord : List mfile → mfile → List mfile
  | [], f => [f]
  | r :: rs, f =>
    if r.name = f.name then { r with size := r.size + f.size } :: rs
    else r :: addRecord rs f

/-- File write and record bookkeeping for one extracted part
(lines 375-407): the destination is opened (created or truncated), a part
whose trimmed content exceeds max_chunk_size closes and removes the file
and leaves the records alone; otherwise the trimmed content is written
(overwriting whatever an earlier part left at the same path) and, when
both the field name and the trimmed content are nonempty, the record list
is updated through addRecord. -/
def commitFile (max_chunk_size : Nat) (st : List mfile × FS) (it : mfile × Str) :
    List mfile × FS :=
  let files := st.1
  let fs := st.2
  let f := it.1
  let data := it.2
  if f.size > max_chunk_size then (files, eraseA fs f.path)
  else
    let fs' := insertA fs f.path data
    if f.name ≠ [] ∧ data ≠ [] then (addRecord files f, fs') else (files, fs')

/-- One iteration of the per-part loop of parse_multipart_form_file
(lines 309-408).  The headers are the text before the first blank line
and the content everything after it.  headers.at(pos - 1) underflows as a
size_t when "filename=" is found at position 0, raising
std::out_of_range.  substr(headers.find(quote, pos) + 1, ...) wraps
npos + 1 to 0 when no quote follows, so the start index becomes 0. -/
def stepPart (hash : Str → Str) (rand : Nat → Str) (format : Str) (max_chunk_size : Nat)
    (st : mpState) (part : Str) : Except Unit mpState :=
  if part = [] ∨ part = lit "--\r\n" then .ok st
  else
    match findSub (lit "\r\n\r\n") part with
    | none => .ok st
    | some e =>
      let headers := part.take e
      let content := part.drop (e + 4)
      match findSub (lit "filename=") headers with
      | none => .ok st
      | some pos =>
        if pos = 0 then .error ()
        else
          match headers.get? (pos - 1) with
          | none => .ok st
          | some prev =>
            if prev = ' ' ∨ prev = ';' then
              let fstart :=
                match findCharFrom headers '"' pos with
                | none => 0
                | some q => q + 1
              match findCharFrom headers '"' fstart with
              | none => .ok st
              | some fend =>
                let filename0 := (headers.drop fstart).take (fend - fstart)
                let filename := filename0.filter (fun c => !(c == '/' || c == '\\'))
                if filename = [] then .ok st
                else
                  let pos2? :=
                    match findSub (lit " name=") headers with
                    | some p2 => some p2
                    | none => findSub (lit ";name=") headers
                  match pos2? with
                  | none => .ok st
                  | some pos2 =>
                    let nstart :=
                      match findCharFrom headers '"' pos2 with
                      | none => 0
                      | some q => q + 1
                    match findCharFrom headers '"' nstart with
                    | none => .ok st
                    | some nend =>
                      let nm := (headers.drop nstart).take (nend - nstart)
                      let sha := hash nm
                      let path1 := substAll (lit "%f") nm format
                      let path2 := substAll (lit "%h") sha path1
                      let pr := substAllRand (lit "%r") rand st.rnd path2
                      let data := trimWs content
                      let f : mfile :=
                        { name := nm, filename := filename, path := pr.1,
                          sha256 := sha, size := data.length }
                      let cf := commitFile max_chunk_size (st.files, st.fs) (f, data)
                      .ok { files := cf.1, fs := cf.2, rnd := pr.2 }
            else .ok st

/-- parse_multipart_form_file: extract the boundary (returning empty
without one), split the whole raw request on the two-dash boundary and
run the per-part loop over every token. -/
def parse_multipart_form_file (hash : Str → Str) (rand : Nat → Str)
    (request format : Str) (max_chunk_size : Nat) (fs0 : FS) :
    Except Unit (List mfile × FS) :=
  match getBoundary request with
  | none => .ok ([], fs0)
  | some boundary =>
    match (splitOnSub boundary request).foldlM
        (stepPart hash rand format max_chunk_size) { fs := fs0 } with
    | .error e => .error e
    | .ok st => .ok (st.files, st.fs)

/-- Fold of the write and record bookkeeping over a list of extracted
parts (field record paired with its trimmed content), starting from an
empty record vector, as the per-part loop performs it. -/
def runCommit (max_chunk_size : Nat) (fs0 : FS) (items : List (mfile × Str)) :
    List mfile × FS :=
  items.foldl (commitFile max_chunk_size) ([], fs0)

/-- An extracted part contributes to the record vector exactly when its
field name and trimmed content are nonempty and its size is within
max_chunk_size. -/
def acceptsRecord (max_chunk_size : Nat) (it : mfile × Str) : Bool :=
  decide (it.1.name ≠ [] ∧ it.2 ≠ [] ∧ it.1.size ≤ max_chunk_size)

/-- Total recorded size for a field name. -/
def sizeSum (n : Str) (rs : List mfile) : Nat :=
  ((rs.filter (fun r => decide (r.name = n))).map (fun r => r.size)).sum

/-! ## Helper lemmas -/

set_option maxRecDepth 8192 in
/-- Decoding the two lowercase hex digits urlencode emits for a byte
recovers the byte value. -/
theorem hexpair_istream : ∀ c : B,
    istreamHex [hexDigitChar (c.val / 16), hexDigitChar (c.val % 16)] = some (c.val : Int) := by
  decide

set_option maxRecDepth 8192 in
/-- Casting a byte value through the extracted int is the identity. -/
theorem intToByte_val : ∀ c : B, intToByte ((c.val : Nat) : Int) = c := by decide

set_option maxRecDepth 8192 in
/-- The percent sign is not in the unreserved set. -/
theorem unreserved_ne_37 : ∀ c : B, isUnreservedByte c = true → ¬ c.val = 37 := by decide

/-- urldecode copies a byte that is not a percent sign. -/
theorem urldecode_cons_of_ne37 (c : B) (h : ¬ c.val = 37) (s : List B) :
    urldecode (c :: s) = c :: urldecode s := by
  match s with
  | [] => rfl
  | [b1] => rfl
  | b1 :: b2 :: t => simp [urldecode, h]

/-- urldecode on a percent sign with a successful two-byte extraction. -/
theorem urldecode_cons37_success (b1 b2 : B) (s : List B) (v : Int)
    (h : istreamHex [b1, b2] = some v) :
    urldecode (37 :: b1 :: b2 :: s) = intToByte v :: urldecode s := by
  have h37 : (37 : B).val = 37 := rfl
  simp [urldecode, h37, h]

/-- urldecode on a percent sign with a failing two-byte extraction. -/
theorem urldecode_cons37_fail (b1 b2 : B) (s : List B)
    (h : istreamHex [b1, b2] = none) :
    urldecode (37 :: b1 :: b2 :: s) = 37 :: urldecode (b1 :: b2 :: s) := by
  have h37 : (37 : B).val = 37 := rfl
  simp [urldecode, h37, h]

set_option maxRecDepth 8192 in
/-- A hex digit byte is not whitespace and not a sign. -/
theorem hexVal_not_ws_sign : ∀ b : B, (hexVal b).isSome →
    isWsByte b = false ∧ ¬ b.val = 43 ∧ ¬ b.val = 45 := by decide

/-- The stream extraction on a window of two hex digits. -/
theorem istreamHex_digits (a b : B) (da db : Nat)
    (ha : hexVal a = some da) (hb : hexVal b = some db) :
    istreamHex [a, b] = some ((16 * da + db : Nat) : Int) := by
  obtain ⟨hw, h43, h45⟩ := hexVal_not_ws_sign a (by simp [ha])
  simp [istreamHex, List.dropWhile_cons, hw, h43, h45, hexRun, hexRunAux, ha, hb]

/-- Fuel-generic form of the html round trip: decoding the escape of a
string over the escaped set succeeds and recovers the string. -/
theorem hsdecF_escape (s : Str) (hs : ∀ c ∈ s, c ∈ escapeSet) :
    ∀ fuel, (htmlspecialchars s).length ≤ fuel →
      hsdecF fuel (htmlspecialchars s) = .ok s := by
  induction s with
  | nil => intro fuel _; cases fuel <;> rfl
  | cons c r ih =>
    intro fuel hf
    have hc : c ∈ escapeSet := hs c (List.mem_cons_self _ _)
    have hr : ∀ x ∈ r, x ∈ escapeSet := fun x hx => hs x (List.mem_cons_of_mem _ hx)
    have hmem : c = '<' ∨ c = '>' ∨ c = '&' ∨ c = '"' ∨ c = '\'' ∨ c = '\\' := by
      simpa [escapeSet] using hc
    rcases hmem with rfl | rfl | rfl | rfl | rfl | rfl
    all_goals {
      cases fuel with
      | zero => simp [htmlspecialchars, escChar, lit] at hf
      | succ fuel =>
        have hlen : (htmlspecialchars r).length ≤ fuel := by
          simp only [htmlspecialchars, escChar, lit] at hf
          simp at hf
          omega
        have hrec := ih hr fuel hlen
        simp [htmlspecialchars, escChar, lit, hsdecF, entityMatch, hrec]
    }

/-- takeWhile over an append whose first part satisfies the predicate. -/
theorem takeWhile_append_all {p : Char → Bool} {s t : Str} (h : ∀ c ∈ s, p c = true) :
    (s ++ t).takeWhile p = s ++ t.takeWhile p := by
  induction s with
  | nil => simp
  | cons c r ih =>
    have hc := h c (List.mem_cons_self _ _)
    simp [List.takeWhile_cons, hc, ih (fun x hx => h x (List.mem_cons_of_mem _ hx))]

/-- dropWhile over an append whose first part satisfies the predicate. -/
theorem dropWhile_append_all {p : Char → Bool} {s t : Str} (h : ∀ c ∈ s, p c = true) :
    (s ++ t).dropWhile p = t.dropWhile p := by
  induction s with
  | nil => simp
  | cons c r ih =>
    have hc := h c (List.mem_cons_self _ _)
    simp [List.dropWhile_cons, hc, ih (fun x hx => h x (List.mem_cons_of_mem _ hx))]

/-- A character absent from a string is not found. -/
theorem firstIdxChar_eq_none {x : Char} {s : Str} (h : ∀ c ∈ s, c ≠ x) :
    firstIdxChar x s = none := by
  induction s with
  | nil => rfl
  | cons c r ih =>
    have hc := h c (List.mem_cons_self _ _)
    simp [firstIdxChar, hc, ih (fun y hy => h y (List.mem_cons_of_mem _ hy))]

/-- The cookie loop on an empty string yields nothing. -/
theorem cookieLoopF_nil : ∀ fuel, cookieLoopF fuel [] = [] := by
  intro fuel; cases fuel <;> rfl

/-- A parsed cookie segment always carries a nonempty value. -/
theorem parseCookieSeg_value_ne {seg : Str} {c : cookie}
    (h : parseCookieSeg seg = some c) : c.value ≠ [] := by
  unfold parseCookieSeg at h
  split at h <;>
  · simp only [] at h
    split at h
    · rename_i hcond
      injection h with h
      subst h
      exact hcond.2
    · exact absurd h (by simp)

/-- Every cookie produced by the parsing loop has a nonempty value. -/
theorem cookieLoopF_value_ne : ∀ (fuel : Nat) (cs : Str) (c : cookie),
    c ∈ cookieLoopF fuel cs → c.value ≠ [] := by
  intro fuel
  induction fuel with
  | zero => intro cs c h; simp [cookieLoopF] at h
  | succ fuel ih =>
    intro cs c h
    rw [cookieLoopF] at h
    split at h
    · simp at h
    · split at h
      · rename_i c0 hp
        rcases List.mem_cons.mp h with rfl | hmem
        · exact parseCookieSeg_value_ne hp
        · exact ih _ _ hmem
      · exact ih _ _ h

/-- The entry count after any run of transitions stays at or below a
positive limit. -/
theorem runRL_count_le (limit : Int) (hl : 1 ≤ limit) :
    ∀ (nows : List Int) (e : Option (Int × Int)),
      (∀ t c : Int, e = some (t, c) → c ≤ limit) →
      ∀ t c : Int, runRL limit e nows = some (t, c) → c ≤ limit := by
  intro nows
  induction nows with
  | nil => intro e he t c h; exact he t c h
  | cons now rest ih =>
    intro e he t c h
    refine ih (some (rateStep limit now e).2) ?_ t c h
    intro t' c' h'
    cases e with
    | none =>
      simp [rateStep] at h'
      omega
    | some tc =>
      obtain ⟨t0, c0⟩ := tc
      have hc0 := he t0 c0 rfl
      by_cases hwin : now - t0 < 60000
      · by_cases hcl : c0 ≥ limit
        · simp [rateStep, hwin, hcl] at h'
          omega
        · simp [rateStep, hwin, hcl] at h'
          omega
      · simp [rateStep, hwin] at h'
        omega

/-- Lookup after insert. -/
theorem lookupA_insertA {α : Type} (m : List (Str × α)) (k : Str) (v : α) (q : Str) :
    lookupA (insertA m k v) q = if k = q then some v else lookupA m q := by
  induction m with
  | nil => by_cases hq : k = q <;> simp [insertA, lookupA, hq]
  | cons x r ih =>
    obtain ⟨xk, xv⟩ := x
    by_cases hxk : xk = k
    · subst hxk
      by_cases hq : xk = q <;> simp [insertA, lookupA, hq]
    · by_cases hxq : xk = q
      · subst hxq
        have hkq : ¬ k = xk := fun hh => hxk hh.symm
        simp [insertA, lookupA, hxk, hkq]
      · simp [insertA, lookupA, hxk, hxq, ih]

/-- Lookup after erase. -/
theorem lookupA_eraseA {α : Type} (m : List (Str × α)) (k : Str) (q : Str) :
    lookupA (eraseA m k) q = if k = q then none else lookupA m q := by
  induction m with
  | nil => by_cases hq : k = q <;> simp [eraseA, lookupA, hq]
  | cons x r ih =>
    obtain ⟨xk, xv⟩ := x
    by_cases hxk : xk = k
    · subst hxk
      by_cases hq : xk = q
      · subst hq
        simp [eraseA, lookupA, ih]
      · simp [eraseA, lookupA, hq, ih]
    · by_cases hxq : xk = q
      · subst hxq
        have hkq : ¬ k = xk := fun hh => hxk hh.symm
        simp [eraseA, lookupA, hxk, hkq]
      · simp [eraseA, lookupA, hxk, hxq, ih]

/-- Effect of one addRecord call on the per-name record count. -/
theorem addRecord_filter (rs : List mfile) (f : mfile) (n : Str) :
    ((addRecord rs f).filter (fun r => decide (r.name = n))).length =
      (rs.filter (fun r => decide (r.name = n))).length +
      (if rs.filter (fun r => decide (r.name = f.name)) = [] ∧ f.name = n then 1 else 0) := by
  induction rs with
  | nil => by_cases h : f.name = n <;> simp [addRecord, h]
  | cons r rs ih =>
    by_cases hr : r.name = f.name
    · have h1 : addRecord (r :: rs) f = { r with size := r.size + f.size } :: rs := by
        simp [addRecord, hr]
      rw [h1]
      have hne : List.filter (fun x => decide (x.name = f.name)) (r :: rs) ≠ [] := by
        simp [List.filter_cons, hr]
      rw [if_neg (fun hand => hne hand.1)]
      by_cases hn : r.name = n <;> simp [List.filter_cons, hn]
    · have h1 : addRecord (r :: rs) f = r :: addRecord rs f := by simp [addRecord, hr]
      rw [h1]
      have h2 : List.filter (fun x => decide (x.name = f.name)) (r :: rs) =
          List.filter (fun x => decide (x.name = f.name)) rs := by
        simp [List.filter_cons, hr]
      rw [h2]
      by_cases hn : r.name = n <;> simp [List.filter_cons, hn, ih]
      all_goals omega

/-- Effect of one addRecord call on the per-name size total. -/
theorem addRecord_sizeSum (rs : List mfile) (f : mfile) (n : Str) :
    sizeSum n (addRecord rs f) = sizeSum n rs + (if f.name = n then f.size else 0) := by
  induction rs with
  | nil => by_cases h : f.name = n <;> simp [addRecord, sizeSum, h]
  | cons r rs ih =>
    by_cases hr : r.name = f.name
    · have hcong : ∀ b : mfile, sizeSum n (b :: rs) =
          (if b.name = n then b.size else 0) + sizeSum n rs := by
        intro b
        by_cases hb : b.name = n <;> simp [sizeSum, List.filter_cons, hb]
      rw [addRecord, if_pos hr, hcong, hcong]
      simp only []
      rw [hr]
      by_cases hn : f.name = n <;> simp [hn]
      all_goals omega
    · have hcong : ∀ (b : mfile) (l : List mfile), sizeSum n (b :: l) =
          (if b.name = n then b.size else 0) + sizeSum n l := by
        intro b l
        by_cases hb : b.name = n <;> simp [sizeSum, List.filter_cons, hb]
      rw [addRecord, if_neg hr, hcong, hcong, ih]
      omega

/-- The commit fold over an appended element. -/
theorem runCommit_append (max : Nat) (fs0 : FS) (l : List (mfile × Str)) (it : mfile × Str) :
    runCommit max fs0 (l ++ [it]) = commitFile max (runCommit max fs0 l) it := by
  simp [runCommit, List.foldl_append]

/-- Filtering an appended element the predicate rejects. -/
theorem filter_append_singleton_false {α : Type} (p : α → Bool) (l : List α) (a : α)
    (h : p a = false) : (l ++ [a]).filter p = l.filter p := by
  simp [List.filter_append, h]

/-- Filtering an appended element the predicate keeps. -/
theorem filter_append_singleton_true {α : Type} (p : α → Bool) (l : List α) (a : α)
    (h : p a = true) : (l ++ [a]).filter p = l.filter p ++ [a] := by
  simp [List.filter_append, h]

/-- The record vector after the commit fold holds at most one record per
field name: none when no accepted part carries the name, exactly one
otherwise. -/
theorem runCommit_filter_length (max : Nat) (fs0 : FS) (items : List (mfile × Str)) :
    ∀ n : Str,
      ((runCommit max fs0 items).1.filter (fun r => decide (r.name = n))).length =
        (if items.filter (fun it => acceptsRecord max it && decide (it.1.name = n)) = []
         then 0 else 1) := by
  induction items using List.reverseRecOn with
  | nil => intro n; simp [runCommit]
  | append_singleton l it ih =>
    intro n
    rw [runCommit_append]
    by_cases hover : it.1.size > max
    · have hacc : acceptsRecord max it = false := by
        simp [acceptsRecord]; omega
      have hcf : commitFile max (runCommit max fs0 l) it =
          ((runCommit max fs0 l).1, eraseA (runCommit max fs0 l).2 it.1.path) := by
        simp [commitFile, hover]
      rw [hcf]
      rw [filter_append_singleton_false _ l it (by simp [hacc])]
      exact ih n
    · by_cases hnd : it.1.name ≠ [] ∧ it.2 ≠ []
      · have hacc : acceptsRecord max it = true := by
          simp [acceptsRecord, hnd.1, hnd.2]; omega
        have hcf : commitFile max (runCommit max fs0 l) it =
            (addRecord (runCommit max fs0 l).1 it.1,
             insertA (runCommit max fs0 l).2 it.1.path it.2) := by
          simp [commitFile, hover, hnd.1, hnd.2]
        rw [hcf]
        have hprev : ((runCommit max fs0 l).1.filter
            (fun r => decide (r.name = it.1.name))).length =
            (if l.filter (fun j => acceptsRecord max j && decide (j.1.name = it.1.name)) = []
             then 0 else 1) := ih it.1.name
        by_cases hn : it.1.name = n
        · subst hn
          rw [addRecord_filter]
          by_cases hemp : l.filter
              (fun j => acceptsRecord max j && decide (j.1.name = it.1.name)) = []
          · have h0 : ((runCommit max fs0 l).1.filter
                (fun r => decide (r.name = it.1.name))).length = 0 := by
              rw [hprev, if_pos hemp]
            have hfe : (runCommit max fs0 l).1.filter
                (fun r => decide (r.name = it.1.name)) = [] :=
              List.length_eq_zero.mp h0
            rw [filter_append_singleton_true _ l it (by simp [hacc])]
            simp [hfe, h0, hemp]
          · have h1 : ((runCommit max fs0 l).1.filter
                (fun r => decide (r.name = it.1.name))).length = 1 := by
              rw [hprev, if_neg hemp]
            have hfne : (runCommit max fs0 l).1.filter
                (fun r => decide (r.name = it.1.name)) ≠ [] := by
              intro hcon
              rw [hcon] at h1
              simp at h1
            rw [filter_append_singleton_true _ l it (by simp [hacc])]
            simp [hfne, h1, hemp]
        · rw [addRecord_filter]
          have hz : (if (runCommit max fs0 l).1.filter
              (fun r => decide (r.name = it.1.name)) = [] ∧ it.1.name = n
              then 1 else 0) = 0 := by
            simp [hn]
          rw [hz]
          rw [filter_append_singleton_false _ l it (by simp [hn])]
          simp [ih n]
      · have hacc : acceptsRecord max it = false := by
          simp [acceptsRecord]
          intro h1 h2
          exact absurd ⟨h1, h2⟩ hnd
        have hcf : (commitFile max (runCommit max fs0 l) it).1 = (runCommit max fs0 l).1 := by
          rcases not_and_or.mp hnd with hname | hdata
          · simp at hname
            simp [commitFile, hover, hname]
          · simp at hdata
            simp [commitFile, hover, hdata]
        rw [hcf]
        rw [filter_append_singleton_false _ l it (by simp [hacc])]
        exact ih n

/-- The recorded size per field name after the commit fold is the sum of
the sizes of the accepted parts carrying the name. -/
theorem runCommit_sizeSum (max : Nat) (fs0 : FS) (items : List (mfile × Str)) :
    ∀ n : Str,
      sizeSum n (runCommit max fs0 items).1 =
        ((items.filter (fun it => acceptsRecord max it && decide (it.1.name = n))).map
          (fun it => it.1.size)).sum := by
  induction items using List.reverseRecOn with
  | nil => intro n; simp [runCommit, sizeSum]
  | append_singleton l it ih =>
    intro n
    rw [runCommit_append]
    by_cases hover : it.1.size > max
    · have hacc : acceptsRecord max it = false := by
        simp [acceptsRecord]; omega
      have hcf : (commitFile max (runCommit max fs0 l) it).1 = (runCommit max fs0 l).1 := by
        simp [commitFile, hover]
      rw [hcf, filter_append_singleton_false _ l it (by simp [hacc])]
      exact ih n
    · by_cases hnd : it.1.name ≠ [] ∧ it.2 ≠ []
      · have hacc : acceptsRecord max it = true := by
          simp [acceptsRecord, hnd.1, hnd.2]; omega
        have hcf : (commitFile max (runCommit max fs0 l) it).1 =
            addRecord (runCommit max fs0 l).1 it.1 := by
          simp [commitFile, hover, hnd.1, hnd.2]
        rw [hcf, addRecord_sizeSum]
        by_cases hn : it.1.name = n
        · rw [filter_append_singleton_true _ l it (by simp [hacc, hn])]
          simp [ih n, hn]
        · rw [filter_append_singleton_false _ l it (by simp [hn])]
          simp [ih n, hn]
      · have hacc : acceptsRecord max it = false := by
          simp [acceptsRecord]
          intro h1 h2
          exact absurd ⟨h1, h2⟩ hnd
        have hcf : (commitFile max (runCommit max fs0 l) it).1 = (runCommit max fs0 l).1 := by
          rcases not_and_or.mp hnd with hname | hdata
          · simp at hname
            simp [commitFile, hover, hname]
          · simp at hdata
            simp [commitFile, hover, hdata]
        rw [hcf, filter_append_singleton_false _ l it (by simp [hacc])]
        exact ih n

/-- The filesystem after the commit fold holds, at every path, the content
of the last part written there (none when that part was oversize and
removed), and is untouched at paths no part targets. -/
theorem runCommit_lookup (max : Nat) (fs0 : FS) (items : List (mfile × Str)) :
    ∀ p : Str,
      lookupA (runCommit max fs0 items).2 p =
        (match (items.filter (fun it => decide (it.1.path = p))).getLast? with
         | none => lookupA fs0 p
         | some it => if it.1.size > max then none else some it.2) := by
  induction items using List.reverseRecOn with
  | nil => intro p; simp [runCommit]
  | append_singleton l it ih =>
    intro p
    rw [runCommit_append]
    have hfs : (commitFile max (runCommit max fs0 l) it).2 =
        (if it.1.size > max then eraseA (runCommit max fs0 l).2 it.1.path
         else insertA (runCommit max fs0 l).2 it.1.path it.2) := by
      by_cases hover : it.1.size > max
      · simp [commitFile, hover]
      · by_cases hnd : it.1.name ≠ [] ∧ it.2 ≠ []
        · simp [commitFile, hover, hnd.1, hnd.2]
        · rcases not_and_or.mp hnd with hname | hdata
          · simp at hname
            simp [commitFile, hover, hname]
          · simp at hdata
            simp [commitFile, hover, hdata]
    rw [hfs]
    by_cases hp : it.1.path = p
    · rw [filter_append_singleton_true _ l it (by simp [hp])]
      rw [List.getLast?_concat]
      by_cases hover : it.1.size > max
      · simp [hover, lookupA_eraseA, hp]
      · simp [hover, lookupA_insertA, hp]
    · rw [filter_append_singleton_false _ l it (by simp [hp])]
      by_cases hover : it.1.size > max
      · simp only [if_pos hover]
        rw [lookupA_eraseA]
        rw [if_neg hp]
        exact ih p
      · simp only [if_neg hover]
        rw [lookupA_insertA]
        rw [if_neg hp]
        exact ih p

/-! ## Claim theorems -/

/-- Claim C1, counterexample: with sessions enabled and no backing record,
a request presenting the session cookie value deadbeef reaches the
callback with empty session map and identifier, but the response carries
no Set-Cookie line at all (in particular no freshly minted session
cookie); instead a backing record is created under the presented
identifier.  The claim asserts a fresh random session cookie on the
response, so it is false. -/
theorem session_invalid_cookie_cex :
    handle_request_session { } [] (fun _ => []) (lit "FRESH") (fun _ => { })
        { cookies := [{ name := lit "session_id", value := lit "deadbeef" }] } =
      { req := { }, resp := { }, store := [(lit "deadbeef", [])], set_cookie_lines := [] } := by
  rfl

/-- Claim C1, amended: for every request with a session cookie whose
sanitized identifier has no backing record, while sessions are enabled,
the callback sees the invalidated request (empty session map, empty
identifier, session and associated cookies erased), no session cookie is
minted (the response cookies are exactly what the callback set), a
backing record for the presented identifier is created from the callback
session updates merged into an empty map, and the Set-Cookie lines are
the serializations of the callback cookies followed by deletion lines for
the callback delete list and the associated session cookies. -/
theorem session_invalid_cookie_behavior (cfg : sconfig) (store : Store) (gmt : Int → Str)
    (freshId : Str) (cb : srequest → sresponse) (req : srequest) (v : Str)
    (hen : cfg.enable_session = true)
    (hf : findSessionValue cfg req.cookies = some v)
    (hst : lookupA store (sanitizeSessionId v) = none) :
    handle_request_session cfg store gmt freshId cb req =
      { req := invalidSessionRequest cfg req,
        resp := cb (invalidSessionRequest cfg req),
        store := insertA store (sanitizeSessionId v)
          ((cb (invalidSessionRequest cfg req)).session.foldl
            (fun m kv => insertA m kv.1 kv.2) []),
        set_cookie_lines :=
          (cb (invalidSessionRequest cfg req)).cookies.map (cookieLine gmt) ++
          ((cb (invalidSessionRequest cfg req)).delete_cookies ++
            cfg.associated_session_cookies).map deleteLine } ∧
    (invalidSessionRequest cfg req).session = [] ∧
    (invalidSessionRequest cfg req).session_id = [] := by
  refine ⟨?_, rfl, rfl⟩
  unfold handle_request_session resolveSession afterCallback
  rw [hf]
  simp only [hst]
  simp [hen, hst]

/-- Claim C1, witness for the amended theorem at a concrete invalid
session cookie. -/
theorem session_invalid_cookie_behavior_witness :
    handle_request_session { } [] (fun _ => []) (lit "F") (fun _ => { })
        { cookies := [{ name := lit "session_id", value := lit "z" }] } =
      { req := { }, resp := { }, store := [(lit "z", [])], set_cookie_lines := [] } := by
  have h := session_invalid_cookie_behavior { } [] (fun _ => []) (lit "F") (fun _ => { })
      { cookies := [{ name := lit "session_id", value := lit "z" }] } (lit "z")
      rfl (by decide) rfl
  exact h.1.trans (by decide)

/-- Claim C2, counterexample: an address that is both whitelisted and
blacklisted is admitted, because the whitelist loop of read_request runs
before the blacklist loop.  The claim asserts the request is dropped
regardless of the whitelist, so it is false. -/
theorem blacklist_precedence_cex :
    read_request { whitelisted_ips := [lit "1.2.3.4"], blacklisted_ips := [lit "1.2.3.4"] }
      [] (lit "1.2.3.4") (lit "/x") 0 = (.admitted, []) ∧
    admission.admitted ≠ admission.dropped := by decide

/-- Claim C2, amended: a blacklisted address that is not whitelisted is
dropped silently before any parsing, with no response written and the
rate tracker untouched; the whitelist bypass precedes the blacklist
check, so an address in both lists is admitted. -/
theorem blacklist_drop_when_not_whitelisted (cfg : rlconfig) (tr : Tracker)
    (ip endpoint : Str) (now : Int)
    (hb : ip ∈ cfg.blacklisted_ips) (hw : ip ∉ cfg.whitelisted_ips) :
    read_request cfg tr ip endpoint now = (.dropped, tr) := by
  unfold read_request
  rw [if_neg hw, if_pos hb]

/-- Claim C2, witness for the amended theorem at a concrete blacklisted
address. -/
theorem blacklist_drop_witness :
    ((lit "9.9.9.9") ∈ ({ blacklisted_ips := [lit "9.9.9.9"] } : rlconfig).blacklisted_ips ∧
     (lit "9.9.9.9") ∉ ({ blacklisted_ips := [lit "9.9.9.9"] } : rlconfig).whitelisted_ips) ∧
    read_request { blacklisted_ips := [lit "9.9.9.9"] } [] (lit "9.9.9.9") (lit "/a") 5 =
      (.dropped, []) :=
  ⟨by decide,
   blacklist_drop_when_not_whitelisted _ [] _ (lit "/a") 5 (by decide) (by decide)⟩

/-- Claim C3, counterexample: with a configured default limit of 0, the
first request from a key is still admitted and creates its entry with
count 1 inside a fresh window, so the count exceeds the applicable limit
and the unqualified invariant of the claim is false. -/
theorem rate_limit_zero_cex :
    read_request { default_rate_limit := 0 } [] (lit "a") (lit "/e") 0 =
      (.admitted, [(lit "a" ++ lit ":" ++ lit "/e", (lit "/e", 0, 1))]) ∧
    ¬ ((1 : Int) ≤ applicableLimit { default_rate_limit := 0 } (lit "/e")) ∧
    ((0 : Int) - 0 < 60000) := by decide

/-- Claim C3, amended: provided the applicable limit is at least 1, the
count of an entry never exceeds the limit over any sequence of
transitions; an entry is created with count 1 and admitted, an in-window
request is rejected exactly when the count has reached the limit and
otherwise increments it, and a request after the window has elapsed
resets the count to 1 and is admitted. -/
theorem rate_limiter_invariant (limit : Int) (hl : 1 ≤ limit) :
    (∀ (nows : List Int) (t c : Int), runRL limit none nows = some (t, c) → c ≤ limit) ∧
    (∀ now : Int, rateStep limit now none = (.admitted, (now, 1))) ∧
    (∀ now t c : Int, now - t < 60000 →
      rateStep limit now (some (t, c)) =
        (if c ≥ limit then (.dropped, (t, c)) else (.admitted, (t, c + 1)))) ∧
    (∀ now t c : Int, ¬ now - t < 60000 →
      rateStep limit now (some (t, c)) = (.admitted, (now, 1))) := by
  refine ⟨?_, ?_, ?_, ?_⟩
  · intro nows t c h
    exact runRL_count_le limit hl nows none (by simp) t c h
  · intro now; rfl
  · intro now t c hwin; simp [rateStep, hwin]
  · intro now t c hwin; simp [rateStep, hwin]

/-- Claim C3, witness for the amended theorem: limit 3, four in-window
requests then one more, the count is capped at 3. -/
theorem rate_limiter_invariant_witness :
    runRL 3 none [0, 1, 2, 3, 4] = some (0, 3) ∧ (3 : Int) ≤ 3 :=
  ⟨by decide, (rate_limiter_invariant 3 (by decide)).1 [0, 1, 2, 3, 4] 0 3 (by decide)⟩

/-- Claim C4, counterexample: the segment " =v" is not dropped: the
emptiness check runs before the leading-space trim, so it yields a cookie
with an empty name; and the serializer produces a Set-Cookie line even
for a cookie with empty name and empty value.  The claim asserts a
cookie with empty name or value is never emitted, so it is false on both
ends. -/
theorem empty_cookie_emitted_cex :
    get_cookies_from_request (lit " =v") = [{ name := [], value := lit "v" }] ∧
    cookieLine (fun _ => []) { name := [], value := [] } =
      lit "=; Expires=session; Path=/; SameSite=Strict; " := by
  constructor
  · rfl
  · rfl

/-- Claim C4, amended: parsing drops every segment whose value is empty or
whose name is empty before the leading-space trim, so every parsed cookie
carries a nonempty value (though the name can become empty when the
segment name was a single space); and a Set-Cookie line is produced for
every response cookie, with no emptiness filtering. -/
theorem cookie_value_nonempty_and_lines_total :
    (∀ (h : Str) (c : cookie), c ∈ get_cookies_from_request h → c.value ≠ []) ∧
    (∀ (gmt : Int → Str) (cs : List cookie), (cs.map (cookieLine gmt)).length = cs.length) := by
  constructor
  · intro h c hc
    exact cookieLoopF_value_ne _ _ _ hc
  · intro gmt cs
    simp

/-- Claim C4, witness for the amended theorem at a concrete header. -/
theorem cookie_value_nonempty_witness :
    ({ name := lit "a", value := lit "b" } : cookie) ∈ get_cookies_from_request (lit "a=b") ∧
    ({ name := lit "a", value := lit "b" } : cookie).value ≠ [] :=
  ⟨by decide,
   cookie_value_nonempty_and_lines_total.1 (lit "a=b") _ (by decide)⟩

set_option maxRecDepth 40000 in
/-- Claim C5, counterexample: two accepted file parts share the field name
f and the deterministic destination out; the parse returns one record
with summed size 5, but the destination finally holds bbb, the content of
the last same-named part, because every accepted part is written
(overwriting), not only the first as the claim asserts. -/
theorem multipart_first_write_cex :
    parse_multipart_form_file (fun _ => []) (fun _ => [])
        (lit "Content-Type: multipart/form-data; boundary=X\r\n\r\n--X\r\nContent-Disposition: form-data; name=\"f\"; filename=\"a.txt\"\r\n\r\naa\r\n--X\r\nContent-Disposition: form-data; name=\"f\"; filename=\"b.txt\"\r\n\r\nbbb\r\n--X--\r\n")
        (lit "out") 100 [] =
      .ok ([{ name := lit "f", filename := lit "a.txt", path := lit "out",
              sha256 := [], size := 5 }],
           [(lit "out", lit "bbb")]) ∧
    lit "bbb" ≠ lit "aa" :=
  ⟨rfl, by decide⟩

/-- Claim C5, amended: over any sequence of extracted parts, the commit
fold of parse_multipart_form_file keeps exactly one record per field name
(none when no accepted part carries it), the record size is the sum of
the trimmed content sizes of all accepted parts with that name, and every
accepted part's content is written to its destination, so a path finally
holds the content of the last part written there (or nothing when that
part was oversize and removed) — not the first part's content. -/
theorem multipart_accumulation (max_chunk_size : Nat) (fs0 : FS)
    (items : List (mfile × Str)) :
    (∀ n : Str,
      ((runCommit max_chunk_size fs0 items).1.filter (fun r => decide (r.name = n))).length =
        (if items.filter
            (fun it => acceptsRecord max_chunk_size it && decide (it.1.name = n)) = []
         then 0 else 1)) ∧
    (∀ n : Str,
      sizeSum n (runCommit max_chunk_size fs0 items).1 =
        ((items.filter
            (fun it => acceptsRecord max_chunk_size it && decide (it.1.name = n))).map
          (fun it => it.1.size)).sum) ∧
    (∀ p : Str,
      lookupA (runCommit max_chunk_size fs0 items).2 p =
        (match (items.filter (fun it => decide (it.1.path = p))).getLast? with
         | none => lookupA fs0 p
         | some it => if it.1.size > max_chunk_size then none else some it.2)) :=
  ⟨runCommit_filter_length max_chunk_size fs0 items,
   runCommit_sizeSum max_chunk_size fs0 items,
   runCommit_lookup max_chunk_size fs0 items⟩

/-- Claim C6, counterexample: the input percent, 4, z is not passed
through unchanged: the stream extraction on the window 4z succeeds with
value 4, so the decoder emits byte 4 and consumes both characters, even
though the percent sign is not followed by two hexadecimal digits.  The
claim asserts malformed sequences pass through unchanged, so it is
false. -/
theorem urldecode_malformed_cex :
    urldecode [37, 52, 122] = [4] ∧ ([4] : List B) ≠ [37, 52, 122] := by decide

/-- Claim C6, amended: a well-formed percent escape of two hex digits
decodes to the corresponding byte, consuming both digits; a percent sign
with fewer than two following characters passes through literally
consuming nothing; a percent sign whose two-character window fails the
stream extraction passes through literally consuming nothing; but a
window on which the extraction succeeds (for example a hex digit followed
by a non-digit, or whitespace then a digit) is consumed entirely and the
extracted value's low byte is emitted. -/
theorem urldecode_behavior :
    (∀ (a b : B) (t : List B) (da db : Nat), hexVal a = some da → hexVal b = some db →
      urldecode (37 :: a :: b :: t) = intToByte ((16 * da + db : Nat) : Int) :: urldecode t) ∧
    (∀ rest : List B, rest.length < 2 → urldecode (37 :: rest) = 37 :: urldecode rest) ∧
    (∀ (a b : B) (t : List B), istreamHex [a, b] = none →
      urldecode (37 :: a :: b :: t) = 37 :: urldecode (a :: b :: t)) ∧
    (∀ (a b : B) (t : List B) (v : Int), istreamHex [a, b] = some v →
      urldecode (37 :: a :: b :: t) = intToByte v :: urldecode t) := by
  refine ⟨?_, ?_, ?_, ?_⟩
  · intro a b t da db ha hb
    exact urldecode_cons37_success a b t _ (istreamHex_digits a b da db ha hb)
  · intro rest hlen
    match rest, hlen with
    | [], _ => rfl
    | [b1], _ => rfl
  · intro a b t h; exact urldecode_cons37_fail a b t h
  · intro a b t v h; exact urldecode_cons37_success a b t v h

/-- Claim C6, witness for the amended theorem: the escape percent, 4, 1
decodes to byte 65, and a trailing percent, z passes the percent sign
through. -/
theorem urldecode_behavior_witness :
    (hexVal 52 = some 4 ∧ hexVal 49 = some 1 ∧
      urldecode [37, 52, 49] = intToByte ((16 * 4 + 1 : Nat) : Int) :: urldecode []) ∧
    (([122] : List B).length < 2 ∧ urldecode [37, 122] = 37 :: urldecode [122]) :=
  ⟨⟨by decide, by decide, urldecode_behavior.1 52 49 [] 4 1 (by decide) (by decide)⟩,
   ⟨by decide, urldecode_behavior.2.1 [122] (by decide)⟩⟩

/-- Claim C7: urldecode inverts urlencode on every byte string. -/
theorem urlencode_urldecode_roundtrip : ∀ s : List B, urldecode (urlencode s) = s := by
  intro s
  induction s with
  | nil => rfl
  | cons c r ih =>
    by_cases hc : isUnreservedByte c = true
    · have h37 := unreserved_ne_37 c hc
      have he : urlencode (c :: r) = c :: urlencode r := by simp [urlencode, hc]
      rw [he, urldecode_cons_of_ne37 c h37, ih]
    · have he : urlencode (c :: r) =
          37 :: hexDigitChar (c.val / 16) :: hexDigitChar (c.val % 16) :: urlencode r := by
        simp [urlencode, hc]
      rw [he, urldecode_cons37_success _ _ _ _ (hexpair_istream c), intToByte_val, ih]

/-- Claim C8: for every string over the six escaped characters, decoding
the escape recovers the string; the escape pass is single left-to-right
and never rescans an inserted entity, so the ampersand introduced by an
earlier replacement is never re-escaped. -/
theorem html_escape_roundtrip (s : Str) (hs : ∀ c ∈ s, c ∈ escapeSet) :
    htmlspecialchars_decode (htmlspecialchars s) = .ok s :=
  hsdecF_escape s hs _ (Nat.le_succ _)

/-- Claim C8, witness at a concrete string over the escaped set. -/
theorem html_escape_roundtrip_witness :
    (∀ c ∈ lit "<&\\\"", c ∈ escapeSet) ∧
    htmlspecialchars_decode (htmlspecialchars (lit "<&\\\"")) = .ok (lit "<&\\\"") :=
  ⟨by decide, html_escape_roundtrip (lit "<&\\\"") (by decide)⟩

/-- Claim C9: a nonempty Cookie-header segment without an equals sign is
kept, not dropped: the npos + 1 wraparound makes the value the whole
segment, and the name is the segment with one leading space removed. -/
theorem cookie_segment_without_equals (s : Str) (hne : s ≠ [])
    (heq : '=' ∉ s) (hsemi : ';' ∉ s) :
    get_cookies_from_request s = [{ name := stripLeadingSpace s, value := s }] := by
  have hpall : ∀ c ∈ s, (c != ';') = true := by
    intro c hcs
    have hcn : c ≠ ';' := fun hce => hsemi (hce ▸ hcs)
    simpa using hcn
  have hdw : (s ++ [';']).dropWhile (fun c => c != ';') = [';'] := by
    rw [dropWhile_append_all hpall]; rfl
  have htw : (s ++ [';']).takeWhile (fun c => c != ';') = s := by
    rw [takeWhile_append_all hpall]; simp [List.takeWhile_cons]
  have hidx : firstIdxChar '=' s = none :=
    firstIdxChar_eq_none (fun c hcs hce => heq (hce ▸ hcs))
  have hp : parseCookieSeg s = some { name := stripLeadingSpace s, value := s } := by
    simp [parseCookieSeg, hidx, hne]
  unfold get_cookies_from_request
  show cookieLoopF (s.length + 1) (s ++ [';']) = _
  rw [cookieLoopF]
  simp [hdw, htw, hp, cookieLoopF_nil]

/-- Claim C9, witness at the concrete segment space, f, o, o. -/
theorem cookie_segment_without_equals_witness :
    ((lit " foo") ≠ [] ∧ '=' ∉ lit " foo" ∧ ';' ∉ lit " foo") ∧
    get_cookies_from_request (lit " foo") =
      [{ name := stripLeadingSpace (lit " foo"), value := lit " foo" }] :=
  ⟨by decide,
   cookie_segment_without_equals (lit " foo") (by decide) (by decide) (by decide)⟩

/-- Claim C10: htmlspecialchars_decode is not total: on the two-character
input ampersand, a the unguarded at(i + 2) read past the end of the
string raises std::out_of_range (the error case of the model), while a
complete entity still decodes. -/
theorem htmlspecialchars_decode_partial :
    htmlspecialchars_decode (lit "&a") = .error () ∧
    htmlspecialchars_decode (lit "&lt;") = .ok (lit "<") := ⟨rfl, rfl⟩

end Limhamn
